import Mathlib

/-!
A verification development for the upstream-routing and bootstrap-resolution
subsystem of AdGuardDNSClient.  The Go sources under `internal/dnssvc`
(`upstream.go`, `bootstrap.go`) and the `cmd` bind-retry configuration are
shallowly embedded as pure Lean functions: the Go maps become association
lists, the external constructor `upstream.AddressToUpstream` is parameterised
by a success predicate on address strings together with a fresh-identity
counter, and the mutation of the `upstreamConfigs` map becomes explicit state
passing.
-/

namespace AGDC

/-! ## Characters and strings

`goLowerChar` models Go's `unicode.ToLower` as used by `strings.ToLower`
on the ASCII range (DNS domain names); `goToLower` models
`strings.ToLower` itself.  `dnsIsFqdn` and `dnsFqdn` embed `IsFqdn` and
`Fqdn` from the `miekg/dns` library: a name is fully qualified when it ends
in a dot that is not preceded by an odd number of escaping backslashes. -/

def goLowerChar (c : Char) : Char :=
  if h : 65 ≤ c.toNat ∧ c.toNat ≤ 90 then
    Char.ofNatAux (c.toNat + 32) (Or.inl (by omega))
  else c

def goToLower (s : String) : String :=
  ⟨s.data.map goLowerChar⟩

def dnsIsFqdn (s : String) : Bool :=
  match s.data.reverse with
  | [] => false
  | c :: rest => c == '.' && (rest.takeWhile (fun x => x == '\\')).length % 2 == 0

def dnsFqdn (s : String) : String :=
  if dnsIsFqdn s then s else s ++ "."

/-- The normalisation applied by `addGroup` to a non-empty question-domain
suffix before it is used as a map key: `dns.Fqdn(strings.ToLower(domain))`. -/
def normKey (d : String) : String :=
  dnsFqdn (goToLower d)

/-! ## Association lists

Go's `map` values, with lookup and insert-or-replace. -/

def alookup {α β : Type} [DecidableEq α] (k : α) : List (α × β) → Option β
  | [] => none
  | (k', v) :: rest => if k' = k then some v else alookup k rest

def aset {α β : Type} [DecidableEq α] (k : α) (v : β) :
    List (α × β) → List (α × β)
  | [] => [(k, v)]
  | (k', v') :: rest => if k' = k then (k, v) :: rest else (k', v') :: aset k v rest

/-! ## Data model -/

/-- Models `netip.Prefix`: a client subnet.  Only equality and the
distinguished zero value matter to the routing-table build. -/
structure NetPfx where
  addr : Nat
  bits : Nat
deriving DecidableEq, Repr

/-- The zero value `netip.Prefix{}`, the key of the default entry. -/
def NetPfx.zero : NetPfx := ⟨0, 0⟩

/-- Models `upstream.Options`: the logger context (upstream type and group
attributes added via `l.With`), the timeout, and the bootstrap resolver
handle (absent for bootstrap upstreams themselves). -/
structure Options where
  upstreamType : String
  upstreamGroup : String
  timeout : Nat
  boot : Option Nat
deriving DecidableEq, Repr

/-- Models `upstream.Upstream`: an opaque handle.  `uid` is the identity of
the handle, allocated freshly by each successful construction, so that
handle (pointer) equality is equality of `uid`; `addr` and `opts` record the
arguments of the construction. -/
structure Upstream where
  uid : Nat
  addr : String
  opts : Options
deriving DecidableEq, Repr

/-- Models `MatchCriteria` from `upstream.go`. -/
structure MatchCriteria where
  Client : NetPfx
  QuestionDomain : String
deriving DecidableEq, Repr

/-- Models `UpstreamGroupConfig` from `upstream.go`. -/
structure UpstreamGroupConfig where
  Name : String
  Address : String
  Match : List MatchCriteria
deriving DecidableEq, Repr

/-- Models `UpstreamConfig` from `upstream.go`. -/
structure UpstreamConfig where
  Groups : List UpstreamGroupConfig
  Timeout : Nat
deriving Repr

/-- Models `proxy.UpstreamConfig`: a per-client routing entry with a
catch-all upstream list and the two domain-keyed maps.  A nil Go map is
modelled as the empty association list. -/
structure ProxyUpstreamConfig where
  Upstreams : List Upstream
  DomainReservedUpstreams : List (String × List Upstream)
  SpecifiedDomainUpstreams : List (String × List Upstream)
deriving DecidableEq, Repr

/-- The zero value `proxy.UpstreamConfig{}`. -/
def ProxyUpstreamConfig.empty : ProxyUpstreamConfig := ⟨[], [], []⟩

/-- Modelled from the spec: the sentinel group name
`agdc.UpstreamGroupNameDefault` (the `agdc` package is not under `src/`;
§3 of the specification gives the reserved names). -/
def upstreamGroupNameDefault : String := "default"

/-- Modelled from the spec: the sentinel group name
`agdc.UpstreamGroupNamePrivate`. -/
def upstreamGroupNamePrivate : String := "private"

/-- The options built by `newUpstreams` for a group: the main-upstream
logger context carries the group name, and the shared timeout and
bootstrap resolver are attached. -/
def mkMainOpts (groupName : String) (timeout : Nat) (boot : Nat) : Options :=
  ⟨"main", groupName, timeout, some boot⟩

/-! ## The upstream pool: `newUpstreamOrCached` -/

/-- Models the external constructor `upstream.AddressToUpstream`: `ok` says
which address strings construct successfully, and a successful construction
allocates the fresh handle identity `fresh`. -/
def addressToUpstream (ok : String → Bool) (addr : String) (opts : Options)
    (fresh : Nat) : Option Upstream :=
  if ok addr then some ⟨fresh, addr, opts⟩ else none

/-- Embeds `newUpstreamOrCached` from `upstream.go`.  Returns the resulting
handle (`none` models a returned error), the updated cache, the updated
fresh counter, and the list of addresses for which `AddressToUpstream` was
called during this invocation (the construction-attempt event log). -/
def newUpstreamOrCached (ok : String → Bool) (addr : String)
    (addrToUps : List (String × Upstream)) (opts : Options) (fresh : Nat) :
    Option Upstream × List (String × Upstream) × Nat × List String :=
  match alookup addr addrToUps with
  | some u => (some u, addrToUps, fresh, [])
  | none =>
    match addressToUpstream ok addr opts fresh with
    | none => (none, addrToUps, fresh, [addr])
    | some u => (some u, aset addr u addrToUps, fresh + 1, [addr])

/-! ## The routing-table builder: `addGroup` and `newUpstreams` -/

/-- `m[domain] = append(m[domain], u)` on a Go map whose zero value for a
missing key is the nil slice. -/
def appendAt (d : String) (u : Upstream)
    (m : List (String × List Upstream)) : List (String × List Upstream) :=
  aset d ((alookup d m).getD [] ++ [u]) m

/-- The body of the loop of `addGroup` in `upstream.go`, for one match
criterion: fetch (or create) the entry of the criterion's client, then
either extend its catch-all list (empty domain) or append to both domain
maps under the normalised key. -/
def addCriterion (u : Upstream)
    (configs : List (NetPfx × ProxyUpstreamConfig)) (m : MatchCriteria) :
    List (NetPfx × ProxyUpstreamConfig) :=
  let conf := (alookup m.Client configs).getD ProxyUpstreamConfig.empty
  if m.QuestionDomain = "" then
    aset m.Client { conf with Upstreams := conf.Upstreams ++ [u] } configs
  else
    let d := normKey m.QuestionDomain
    aset m.Client
      { conf with
        DomainReservedUpstreams := appendAt d u conf.DomainReservedUpstreams
        SpecifiedDomainUpstreams := appendAt d u conf.SpecifiedDomainUpstreams }
      configs

/-- Embeds `(*UpstreamGroupConfig).addGroup` from `upstream.go`. -/
def UpstreamGroupConfig.addGroup (ugc : UpstreamGroupConfig)
    (configs : List (NetPfx × ProxyUpstreamConfig)) (u : Upstream) :
    List (NetPfx × ProxyUpstreamConfig) :=
  ugc.Match.foldl (addCriterion u) configs

/-- One collected error of `newUpstreams`:
`fmt.Errorf("group %q: %w", g.Name, err)` where `err` is the construction
error for the group's address. -/
structure GroupError where
  group : String
  addr : String
deriving DecidableEq, Repr

/-- The state threaded through the group loop of `newUpstreams`: the
client-keyed table `ups`, the optional private configuration, the address
cache, the fresh-identity counter, the collected errors, and the
construction-attempt event log.  The Go function returns
`(ups, private, errors.Join(errs))`; the joined error is nil exactly when
`errs` is empty. -/
structure BuildState where
  ups : List (NetPfx × ProxyUpstreamConfig)
  privateUps : Option ProxyUpstreamConfig
  addrToUps : List (String × Upstream)
  fresh : Nat
  errs : List GroupError
  attempts : List String
deriving Repr

/-- One iteration of the group loop of `newUpstreams`. -/
def newUpstreamsStep (ok : String → Bool) (timeout : Nat) (boot : Nat)
    (s : BuildState) (g : UpstreamGroupConfig) : BuildState :=
  let opts := mkMainOpts g.Name timeout boot
  match newUpstreamOrCached ok g.Address s.addrToUps opts s.fresh with
  | (none, cache, fresh, att) =>
    { s with
      addrToUps := cache, fresh := fresh
      errs := s.errs ++ [⟨g.Name, g.Address⟩]
      attempts := s.attempts ++ att }
  | (some u, cache, fresh, att) =>
    let s' := { s with addrToUps := cache, fresh := fresh,
                       attempts := s.attempts ++ att }
    if g.Name = upstreamGroupNameDefault then
      let conf := (alookup NetPfx.zero s'.ups).getD ProxyUpstreamConfig.empty
      { s' with
        ups := aset NetPfx.zero
          { conf with Upstreams := conf.Upstreams ++ [u] } s'.ups }
    else if g.Name = upstreamGroupNamePrivate then
      let pconf := s'.privateUps.getD ProxyUpstreamConfig.empty
      { s' with
        privateUps := some { pconf with Upstreams := pconf.Upstreams ++ [u] } }
    else
      { s' with ups := g.addGroup s'.ups u }

/-- The initial state of `newUpstreams`: the table holds the default entry
under the zero-value prefix key and nothing else. -/
def initBuildState : BuildState :=
  ⟨[(NetPfx.zero, ProxyUpstreamConfig.empty)], none, [], 0, [], []⟩

/-- Embeds `newUpstreams` from `upstream.go`. -/
def newUpstreams (ok : String → Bool) (boot : Nat) (conf : UpstreamConfig) :
    BuildState :=
  conf.Groups.foldl (newUpstreamsStep ok conf.Timeout boot) initBuildState

/-- All upstream handles reachable from the built routing structures: the
catch-all lists and both domain maps of every client entry, and the private
list. -/
def collectEntry (c : ProxyUpstreamConfig) : List Upstream :=
  c.Upstreams ++ (c.DomainReservedUpstreams.map Prod.snd).flatten ++
    (c.SpecifiedDomainUpstreams.map Prod.snd).flatten

def collectTable (t : List (NetPfx × ProxyUpstreamConfig)) : List Upstream :=
  (t.map (fun pc => collectEntry pc.2)).flatten

def collectUps (s : BuildState) : List Upstream :=
  collectTable s.ups ++
    (match s.privateUps with
     | some c => c.Upstreams
     | none => [])

/-- The components of the build state that determine the routing result:
the table, the private configuration, the cache and the fresh counter. -/
def coreOf (s : BuildState) :
    List (NetPfx × ProxyUpstreamConfig) × Option ProxyUpstreamConfig ×
      List (String × Upstream) × Nat :=
  (s.ups, s.privateUps, s.addrToUps, s.fresh)

/-! ## The bootstrap chain builder: `newResolvers` from `bootstrap.go` -/

/-- Models `upstream.UpstreamResolver`: its exported field `Upstream` (here
`ups`) is the underlying upstream, the closable resource. -/
structure UpstreamResolver where
  ups : Upstream
deriving DecidableEq, Repr

/-- Models the result of `upstream.NewCachingResolver` applied to an
`UpstreamResolver`. -/
structure CachingResolver where
  resolver : UpstreamResolver
deriving DecidableEq, Repr

/-- Models `BootstrapConfig` from `bootstrap.go`.  An element of
`Addresses` stands for the string form `addr.String()` of the
`netip.AddrPort`. -/
structure BootstrapConfig where
  Addresses : List String
  Timeout : Nat
deriving Repr

/-- One collected error of `newResolvers`:
`fmt.Errorf("resolvers: at index %d: %w", i, err)`. -/
structure BootError where
  index : Nat
  addr : String
deriving DecidableEq, Repr

/-- The options built once by `newResolvers`: bootstrap logger context, the
shared timeout, no bootstrap resolver of its own. -/
def mkBootOpts (timeout : Nat) : Options :=
  ⟨"bootstrap", "", timeout, none⟩

/-- Models the external constructor `upstream.NewUpstreamResolver`: `ok`
says which addresses construct successfully; a success allocates the fresh
identity `fresh` for the underlying upstream. -/
def newUpstreamResolver (ok : String → Bool) (addr : String) (opts : Options)
    (fresh : Nat) : Option UpstreamResolver :=
  if ok addr then some ⟨⟨fresh, addr, opts⟩⟩ else none

/-- The indexed loop of `newResolvers`, with the running index `i` and the
fresh-identity counter threaded through; returns the consequent resolver
chain, the closers, the collected errors, and the final counter. -/
def newResolversLoop (ok : String → Bool) (opts : Options) :
    List String → Nat → Nat →
    List CachingResolver × List Upstream × List BootError × Nat
  | [], _, fresh => ([], [], [], fresh)
  | addr :: rest, i, fresh =>
    match newUpstreamResolver ok addr opts fresh with
    | none =>
      let r := newResolversLoop ok opts rest (i + 1) fresh
      (r.1, r.2.1, ⟨i, addr⟩ :: r.2.2.1, r.2.2.2)
    | some b =>
      let r := newResolversLoop ok opts rest (i + 1) (fresh + 1)
      (⟨b⟩ :: r.1, b.ups :: r.2.1, r.2.2.1, r.2.2.2)

/-- Embeds `newResolvers` from `bootstrap.go`: the returned triple models
`(boot, closers, errors.Join(errs))`; the joined error is nil exactly when
the error list is empty. -/
def newResolvers (ok : String → Bool) (conf : BootstrapConfig) :
    List CachingResolver × List Upstream × List BootError :=
  let r := newResolversLoop ok (mkBootOpts conf.Timeout) conf.Addresses 0 0
  (r.1, r.2.1, r.2.2.1)

/-! ## The bind-retry configuration and executor -/

/-- Embeds `bindRetryConfig` from the `cmd` package: the YAML-facing
configuration.  `Interval` models the `timeutil.Duration` value and `Count`
the `uint` value. -/
structure bindRetryConfig where
  Enabled : Bool
  Interval : Nat
  Count : Nat
deriving DecidableEq, Repr

/-- Modelled from the spec: `dnssvc.BindRetryConfig`, the internal
representation taken by the bind retry executor (the `dnssvc` file defining
it is not under `src/`). -/
structure BindRetryConfig where
  Enabled : Bool
  Interval : Nat
  Count : Nat
deriving DecidableEq, Repr

/-- Embeds `(*bindRetryConfig).toInternal` from the `cmd` package. -/
def bindRetryConfig.toInternal (c : bindRetryConfig) : BindRetryConfig :=
  ⟨c.Enabled, c.Interval, c.Count⟩

/-- Modelled from the spec: the retry loop of the bind retry executor
(§4.4; the executor itself is not under `src/`).  `bind i` is the result of
the `i`-th bind attempt (`none` is success); `n` is the number of retries
still allowed after the current attempt.  Returns the final result, the
number of attempts performed, and the list of sleep intervals between
consecutive attempts. -/
def bindAttempts {E : Type} (bind : Nat → Option E) (interval : Nat) :
    Nat → Nat → Option E × Nat × List Nat
  | i, 0 => (bind i, 1, [])
  | i, n + 1 =>
    match bind i with
    | none => (none, 1, [])
    | some _ =>
      let r := bindAttempts bind interval (i + 1) n
      (r.1, r.2.1 + 1, interval :: r.2.2)

/-- Modelled from the spec: the bind retry executor (§4.4).  Disabled: one
attempt, result returned unchanged.  Enabled: up to `Count` additional
attempts spaced by `Interval`, first success returned immediately, last
error returned when all fail. -/
def bindWithRetry {E : Type} (bind : Nat → Option E) (c : BindRetryConfig) :
    Option E × Nat × List Nat :=
  if c.Enabled then bindAttempts bind c.Interval 0 c.Count
  else (bind 0, 1, [])

/-- The invariant of the group loop of `newUpstreams`: the relation between
the groups already processed and the build state.  `ok` is the success
predicate of the external constructor, `timeout` and `boot` the shared
options. -/
structure BuildInv (ok : String → Bool) (timeout boot : Nat)
    (processed : List UpstreamGroupConfig) (s : BuildState) : Prop where
  cache_ok : ∀ a u, alookup a s.addrToUps = some u → ok a = true
  cache_addr : ∀ a u, alookup a s.addrToUps = some u → u.addr = a
  cache_none : ∀ a, processed.find? (fun g => g.Address == a) = none →
    alookup a s.addrToUps = none
  cache_first : ∀ a g, processed.find? (fun g' => g'.Address == a) = some g →
    ok a = true →
    ∃ k, alookup a s.addrToUps = some ⟨k, a, mkMainOpts g.Name timeout boot⟩
  reach : ∀ u ∈ collectUps s, alookup u.addr s.addrToUps = some u
  dom_eq : ∀ p c, alookup p s.ups = some c →
    c.DomainReservedUpstreams = c.SpecifiedDomainUpstreams
  zero_mem : (alookup NetPfx.zero s.ups).isSome = true
  errs_eq : s.errs = (processed.filter (fun g => !(ok g.Address))).map
    (fun g => ⟨g.Name, g.Address⟩)
  attempts_count : ∀ a, ok a = true →
    s.attempts.count a =
      if processed.any (fun g => g.Address == a) then 1 else 0

/-! ## Helper lemmas: association lists -/

theorem alookup_aset_self {α β : Type} [DecidableEq α] (k : α) (v : β) :
    ∀ m : List (α × β), alookup k (aset k v m) = some v := by
  intro m
  induction m with
  | nil => simp [alookup, aset]
  | cons p rest ih =>
    obtain ⟨k', v'⟩ := p
    by_cases h : k' = k
    · simp [alookup, aset, h]
    · simp [alookup, aset, h, ih]

theorem alookup_aset_ne {α β : Type} [DecidableEq α] {k k' : α} (v : β)
    (hne : k' ≠ k) :
    ∀ m : List (α × β), alookup k' (aset k v m) = alookup k' m := by
  intro m
  have hkk : ¬k = k' := fun h => hne h.symm
  induction m with
  | nil =>
    simp only [aset, alookup]
    rw [if_neg hkk]
  | cons p rest ih =>
    obtain ⟨k₀, v₀⟩ := p
    by_cases h : k₀ = k
    · subst h
      simp only [aset, if_pos rfl, alookup]
      rw [if_neg hkk, if_neg hkk]
    · simp only [aset, if_neg h, alookup]
      by_cases h' : k₀ = k'
      · rw [if_pos h', if_pos h']
      · rw [if_neg h', if_neg h', ih]

theorem alookup_mem {α β : Type} [DecidableEq α] {k : α} {v : β} :
    ∀ {m : List (α × β)}, alookup k m = some v → (k, v) ∈ m := by
  intro m
  induction m with
  | nil => intro h; simp [alookup] at h
  | cons p rest ih =>
    obtain ⟨k₀, v₀⟩ := p
    intro h
    simp only [alookup] at h
    by_cases hk : k₀ = k
    · rw [if_pos hk] at h
      subst hk
      cases h
      exact List.mem_cons_self _ _
    · rw [if_neg hk] at h
      exact List.mem_cons_of_mem _ (ih h)

theorem mem_aset {α β : Type} [DecidableEq α] {x : α × β} {k : α} {v : β} :
    ∀ {m : List (α × β)}, x ∈ aset k v m → x ∈ m ∨ x = (k, v) := by
  intro m
  induction m with
  | nil =>
    intro h
    simp only [aset] at h
    right
    simpa using h
  | cons p rest ih =>
    obtain ⟨k₀, v₀⟩ := p
    intro h
    simp only [aset] at h
    by_cases hk : k₀ = k
    · rw [if_pos hk] at h
      rcases List.mem_cons.mp h with h | h
      · right; exact h
      · left; exact List.mem_cons_of_mem _ h
    · rw [if_neg hk] at h
      rcases List.mem_cons.mp h with h | h
      · left; exact h ▸ List.mem_cons_self _ _
      · rcases ih h with h | h
        · left; exact List.mem_cons_of_mem _ h
        · right; exact h

theorem alookup_isSome_aset {α β : Type} [DecidableEq α] {k' : α} (k : α)
    (v : β) {m : List (α × β)} (h : (alookup k' m).isSome = true) :
    (alookup k' (aset k v m)).isSome = true := by
  by_cases hk : k' = k
  · subst hk
    rw [alookup_aset_self]
    rfl
  · rw [alookup_aset_ne v hk]
    exact h

/-! ## Helper lemmas: characters and strings -/

theorem toNat_goLowerChar (c : Char) :
    (goLowerChar c).toNat =
      if 65 ≤ c.toNat ∧ c.toNat ≤ 90 then c.toNat + 32 else c.toNat := by
  unfold goLowerChar
  split
  · rfl
  · rfl

theorem char_eq_of_toNat_eq {a b : Char} (h : a.toNat = b.toNat) : a = b :=
  Char.eq_of_val_eq (UInt32.toNat.inj h)

/-- `goLowerChar` maps nothing new onto a character outside the lowercase
and uppercase basic-latin ranges. -/
theorem goLowerChar_eq_iff {c : Char} (d : Char)
    (hd : d.toNat < 65 ∨ (90 < d.toNat ∧ d.toNat < 97) ∨ 122 < d.toNat) :
    goLowerChar c = d ↔ c = d := by
  constructor
  · intro h
    have hn := congrArg Char.toNat h
    rw [toNat_goLowerChar] at hn
    split at hn
    · omega
    · exact char_eq_of_toNat_eq hn
  · intro h
    subst h
    apply char_eq_of_toNat_eq
    rw [toNat_goLowerChar]
    split <;> omega

theorem goLowerChar_idem (c : Char) :
    goLowerChar (goLowerChar c) = goLowerChar c := by
  apply char_eq_of_toNat_eq
  rw [toNat_goLowerChar, toNat_goLowerChar]
  by_cases hA : 65 ≤ c.toNat ∧ c.toNat ≤ 90
  · rw [if_pos hA, if_neg (by omega)]
  · rw [if_neg hA, if_neg hA]

theorem goToLower_data (s : String) :
    (goToLower s).data = s.data.map goLowerChar := rfl

theorem goToLower_idem (s : String) : goToLower (goToLower s) = goToLower s := by
  apply String.ext
  show (s.data.map goLowerChar).map goLowerChar = s.data.map goLowerChar
  rw [List.map_map]
  exact List.map_congr_left fun c _ => goLowerChar_idem c

/-- The normalised key is insensitive to the case of the input. -/
theorem normKey_goToLower (d : String) : normKey (goToLower d) = normKey d := by
  unfold normKey
  rw [goToLower_idem]

/-- The normalised key always ends in a dot. -/
theorem normKey_getLast (d : String) :
    (normKey d).data.getLast? = some '.' := by
  unfold normKey dnsFqdn
  split
  · rename_i h
    simp only [dnsIsFqdn] at h
    cases hrev : (goToLower d).data.reverse with
    | nil => rw [hrev] at h; exact absurd h (by simp)
    | cons c rest =>
      rw [hrev] at h
      simp only [Bool.and_eq_true, beq_iff_eq] at h
      rw [← List.head?_reverse, hrev]
      simp [h.1]
  · rw [String.data_append]
    exact List.getLast?_concat _

/-- If the (lower-cased image of the) input neither ends in a dot nor in a
backslash, adding a trailing dot does not change the normalised key. -/
theorem normKey_append_dot (d : String)
    (h1 : d.data.getLast? ≠ some '.') (h2 : d.data.getLast? ≠ some '\\') :
    normKey (d ++ ".") = normKey d := by
  have hL1 : (d.data.map goLowerChar).getLast? ≠ some '.' := by
    intro h
    rw [List.getLast?_map] at h
    obtain ⟨c, hc, hfc⟩ := Option.map_eq_some'.mp h
    exact h1 (by rw [hc, (goLowerChar_eq_iff '.' (by decide)).mp hfc])
  have hL2 : (d.data.map goLowerChar).getLast? ≠ some '\\' := by
    intro h
    rw [List.getLast?_map] at h
    obtain ⟨c, hc, hfc⟩ := Option.map_eq_some'.mp h
    exact h2 (by rw [hc, (goLowerChar_eq_iff '\\' (by decide)).mp hfc])
  have hgl : goToLower (d ++ ".") = ⟨d.data.map goLowerChar ++ ['.']⟩ := by
    apply String.ext
    show (d ++ ".").data.map goLowerChar = d.data.map goLowerChar ++ ['.']
    rw [String.data_append, List.map_append]
    rfl
  have hIs : dnsIsFqdn ⟨d.data.map goLowerChar ++ ['.']⟩ = true := by
    simp only [dnsIsFqdn]
    rw [show (d.data.map goLowerChar ++ ['.']).reverse
          = '.' :: (d.data.map goLowerChar).reverse by simp]
    have htake : (d.data.map goLowerChar).reverse.takeWhile
        (fun x => x == '\\') = [] := by
      cases hr : (d.data.map goLowerChar).reverse with
      | nil => rfl
      | cons c t =>
        have hlast : (d.data.map goLowerChar).getLast? = some c := by
          rw [← List.head?_reverse, hr]; rfl
        have hc : (c == '\\') = false := by
          apply beq_eq_false_iff_ne.mpr
          intro hcc
          exact hL2 (by rw [hlast, hcc])
        simp [List.takeWhile, hc]
    show ('.' == '.' &&
      ((d.data.map goLowerChar).reverse.takeWhile
        (fun x => x == '\\')).length % 2 == 0) = true
    rw [htake]
    rfl
  have hIsd : dnsIsFqdn (goToLower d) = false := by
    simp only [dnsIsFqdn]
    cases hr : (goToLower d).data.reverse with
    | nil => rfl
    | cons c t =>
      have hlast : (d.data.map goLowerChar).getLast? = some c := by
        rw [← List.head?_reverse, ← goToLower_data, hr]; rfl
      have hc : (c == '.') = false := by
        apply beq_eq_false_iff_ne.mpr
        intro hcc
        exact hL1 (by rw [hlast, hcc])
      simp [hc]
  unfold normKey dnsFqdn
  rw [hgl, hIs, hIsd]
  simp only [if_true, if_false]
  apply String.ext
  show d.data.map goLowerChar ++ ['.'] = (goToLower d ++ ".").data
  rw [String.data_append]
  rfl

/-! ## Helper lemmas: collected handles -/

theorem mem_collectTable_of_lookup {t : List (NetPfx × ProxyUpstreamConfig)}
    {k : NetPfx} {c : ProxyUpstreamConfig} (hl : alookup k t = some c)
    {v : Upstream} (hv : v ∈ collectEntry c) : v ∈ collectTable t :=
  List.mem_flatten.mpr
    ⟨collectEntry c, List.mem_map.mpr ⟨(k, c), alookup_mem hl, rfl⟩, hv⟩

theorem mem_collectEntry_getD {t : List (NetPfx × ProxyUpstreamConfig)}
    {k : NetPfx} {v : Upstream}
    (h : v ∈ collectEntry ((alookup k t).getD ProxyUpstreamConfig.empty)) :
    v ∈ collectTable t := by
  cases hlk : alookup k t with
  | none =>
    rw [hlk] at h
    simp [collectEntry, ProxyUpstreamConfig.empty] at h
  | some c =>
    rw [hlk] at h
    exact mem_collectTable_of_lookup hlk h

theorem mem_collectTable_aset {t : List (NetPfx × ProxyUpstreamConfig)}
    {k : NetPfx} {c' : ProxyUpstreamConfig} {v : Upstream}
    (h : v ∈ collectTable (aset k c' t)) :
    v ∈ collectTable t ∨ v ∈ collectEntry c' := by
  obtain ⟨l, hl, hvl⟩ := List.mem_flatten.mp h
  obtain ⟨⟨k₀, c₀⟩, hmem, rfl⟩ := List.mem_map.mp hl
  rcases mem_aset hmem with hm | hm
  · exact Or.inl (List.mem_flatten.mpr ⟨_, List.mem_map.mpr ⟨_, hm, rfl⟩, hvl⟩)
  · cases hm
    exact Or.inr hvl

theorem mem_collectEntry_ups {c : ProxyUpstreamConfig} {u v : Upstream}
    (h : v ∈ collectEntry { c with Upstreams := c.Upstreams ++ [u] }) :
    v ∈ collectEntry c ∨ v = u := by
  simp only [collectEntry, List.mem_append, List.mem_singleton] at h ⊢
  tauto

theorem mem_appendAt {d : String} {u v : Upstream}
    {m : List (String × List Upstream)}
    (h : v ∈ ((appendAt d u m).map Prod.snd).flatten) :
    v ∈ (m.map Prod.snd).flatten ∨ v = u := by
  unfold appendAt at h
  obtain ⟨l, hl, hvl⟩ := List.mem_flatten.mp h
  obtain ⟨⟨d₀, l₀⟩, hmem, rfl⟩ := List.mem_map.mp hl
  rcases mem_aset hmem with hm | hm
  · exact Or.inl (List.mem_flatten.mpr ⟨_, List.mem_map.mpr ⟨_, hm, rfl⟩, hvl⟩)
  · cases hm
    rcases List.mem_append.mp hvl with h' | h'
    · cases hlk : alookup d m with
      | none =>
        rw [hlk] at h'
        simp at h'
      | some l₁ =>
        rw [hlk] at h'
        exact Or.inl (List.mem_flatten.mpr
          ⟨l₁, List.mem_map.mpr ⟨(d, l₁), alookup_mem hlk, rfl⟩, h'⟩)
    · exact Or.inr (List.mem_singleton.mp h')

theorem mem_collectEntry_maps {c : ProxyUpstreamConfig} {d : String}
    {u v : Upstream}
    (h : v ∈ collectEntry
      { c with
        DomainReservedUpstreams := appendAt d u c.DomainReservedUpstreams
        SpecifiedDomainUpstreams := appendAt d u c.SpecifiedDomainUpstreams }) :
    v ∈ collectEntry c ∨ v = u := by
  simp only [collectEntry, List.mem_append] at h ⊢
  rcases h with (h | h) | h
  · exact Or.inl (Or.inl (Or.inl h))
  · rcases mem_appendAt h with h' | h'
    · exact Or.inl (Or.inl (Or.inr h'))
    · exact Or.inr h'
  · rcases mem_appendAt h with h' | h'
    · exact Or.inl (Or.inr h')
    · exact Or.inr h'

theorem mem_collectTable_addCriterion {u : Upstream}
    {t : List (NetPfx × ProxyUpstreamConfig)} {m : MatchCriteria} {v : Upstream}
    (h : v ∈ collectTable (addCriterion u t m)) :
    v ∈ collectTable t ∨ v = u := by
  simp only [addCriterion] at h
  split at h
  · rcases mem_collectTable_aset h with h' | h'
    · exact Or.inl h'
    · rcases mem_collectEntry_ups h' with h'' | h''
      · exact Or.inl (mem_collectEntry_getD h'')
      · exact Or.inr h''
  · rcases mem_collectTable_aset h with h' | h'
    · exact Or.inl h'
    · rcases mem_collectEntry_maps h' with h'' | h''
      · exact Or.inl (mem_collectEntry_getD h'')
      · exact Or.inr h''

theorem mem_collectTable_foldl {u : Upstream} :
    ∀ (ms : List MatchCriteria) (t : List (NetPfx × ProxyUpstreamConfig))
      (v : Upstream), v ∈ collectTable (ms.foldl (addCriterion u) t) →
      v ∈ collectTable t ∨ v = u := by
  intro ms
  induction ms with
  | nil => exact fun t v h => Or.inl h
  | cons m rest ih =>
    intro t v h
    rcases ih _ _ h with h' | h'
    · exact mem_collectTable_addCriterion h'
    · exact Or.inr h'

theorem dom_eq_addCriterion {u : Upstream}
    {t : List (NetPfx × ProxyUpstreamConfig)} {m : MatchCriteria}
    (H : ∀ p c, alookup p t = some c →
      c.DomainReservedUpstreams = c.SpecifiedDomainUpstreams) :
    ∀ p c, alookup p (addCriterion u t m) = some c →
      c.DomainReservedUpstreams = c.SpecifiedDomainUpstreams := by
  have hbase : ((alookup m.Client t).getD
      ProxyUpstreamConfig.empty).DomainReservedUpstreams =
      ((alookup m.Client t).getD
      ProxyUpstreamConfig.empty).SpecifiedDomainUpstreams := by
    cases hlk : alookup m.Client t with
    | none => rfl
    | some c₀ => exact H _ _ hlk
  intro p c h
  simp only [addCriterion] at h
  split at h
  · by_cases hp : p = m.Client
    · subst hp
      rw [alookup_aset_self] at h
      cases h
      exact hbase
    · rw [alookup_aset_ne _ hp] at h
      exact H _ _ h
  · by_cases hp : p = m.Client
    · subst hp
      rw [alookup_aset_self] at h
      cases h
      show appendAt _ u _ = appendAt _ u _
      rw [hbase]
    · rw [alookup_aset_ne _ hp] at h
      exact H _ _ h

theorem dom_eq_foldl {u : Upstream} :
    ∀ (ms : List MatchCriteria) (t : List (NetPfx × ProxyUpstreamConfig)),
      (∀ p c, alookup p t = some c →
        c.DomainReservedUpstreams = c.SpecifiedDomainUpstreams) →
      ∀ p c, alookup p (ms.foldl (addCriterion u) t) = some c →
        c.DomainReservedUpstreams = c.SpecifiedDomainUpstreams := by
  intro ms
  induction ms with
  | nil => exact fun t H => H
  | cons m rest ih => exact fun t H => ih _ (dom_eq_addCriterion H)

theorem isSome_addCriterion {u : Upstream}
    {t : List (NetPfx × ProxyUpstreamConfig)} {m : MatchCriteria} {p : NetPfx}
    (h : (alookup p t).isSome = true) :
    (alookup p (addCriterion u t m)).isSome = true := by
  simp only [addCriterion]
  split
  · exact alookup_isSome_aset _ _ h
  · exact alookup_isSome_aset _ _ h

theorem isSome_foldl {u : Upstream} {p : NetPfx} :
    ∀ (ms : List MatchCriteria) (t : List (NetPfx × ProxyUpstreamConfig)),
      (alookup p t).isSome = true →
      (alookup p (ms.foldl (addCriterion u) t)).isSome = true := by
  intro ms
  induction ms with
  | nil => exact fun t h => h
  | cons m rest ih => exact fun t h => ih _ (isSome_addCriterion h)

theorem find?_none_iff_any_false {α : Type} (p : α → Bool) (l : List α) :
    l.find? p = none ↔ l.any p = false := by
  rw [List.find?_eq_none]
  constructor
  · intro h
    rw [← Bool.not_eq_true, List.any_eq_true]
    rintro ⟨x, hx, hpx⟩
    exact h x hx hpx
  · intro h x hx hpx
    rw [← Bool.not_eq_true, List.any_eq_true] at h
    exact h ⟨x, hx, hpx⟩

theorem step_inv_fail {ok : String → Bool} {timeout boot : Nat}
    {processed : List UpstreamGroupConfig} {s : BuildState}
    {g : UpstreamGroupConfig} (inv : BuildInv ok timeout boot processed s)
    (hlk : alookup g.Address s.addrToUps = none)
    (hok : ok g.Address = false) :
    BuildInv ok timeout boot (processed ++ [g])
      (newUpstreamsStep ok timeout boot s g) := by
  simp only [newUpstreamsStep, newUpstreamOrCached, hlk, addressToUpstream,
    hok, if_false, Bool.false_eq_true]
  constructor
  case cache_ok => exact inv.cache_ok
  case cache_addr => exact inv.cache_addr
  case cache_none =>
    intro a h
    apply inv.cache_none
    rw [List.find?_eq_none] at h ⊢
    exact fun x hx => h x (List.mem_append_left _ hx)
  case cache_first =>
    intro a g₀ h ha
    rw [List.find?_append] at h
    cases hp : processed.find? (fun g' => g'.Address == a) with
    | some g₁ =>
      rw [hp, Option.or_some] at h
      injection h with h
      subst h
      exact inv.cache_first a g₁ hp ha
    | none =>
      rw [hp, Option.none_or, List.find?_singleton] at h
      split at h
      · rename_i hmatch
        injection h with h
        have haddr : g.Address = a := by simpa using hmatch
        rw [haddr, ha] at hok
        cases hok
      · cases h
  case reach => exact inv.reach
  case dom_eq => exact inv.dom_eq
  case zero_mem => exact inv.zero_mem
  case errs_eq =>
    show s.errs ++ [⟨g.Name, g.Address⟩] = _
    rw [List.filter_append, List.map_append, inv.errs_eq]
    congr 1
    simp [hok]
  case attempts_count =>
    intro a ha
    show (s.attempts ++ [g.Address]).count a = _
    rw [List.count_append, List.any_append]
    have hnep : g.Address ≠ a := by
      intro hcc
      rw [hcc, ha] at hok
      cases hok
    have hcnt : [g.Address].count a = 0 := by
      simp [List.count_singleton', hnep]
    have hanyg : ([g].any fun g' => g'.Address == a) = false := by
      simp [hnep]
    rw [hcnt, hanyg, Bool.or_false, inv.attempts_count a ha, Nat.add_zero]



theorem step_inv_hit {ok : String → Bool} {timeout boot : Nat}
    {processed : List UpstreamGroupConfig} {s : BuildState}
    {g : UpstreamGroupConfig} {u : Upstream}
    (inv : BuildInv ok timeout boot processed s)
    (hlk : alookup g.Address s.addrToUps = some u) :
    BuildInv ok timeout boot (processed ++ [g])
      (newUpstreamsStep ok timeout boot s g) := by
  have hok : ok g.Address = true := inv.cache_ok _ _ hlk
  have hu_addr : u.addr = g.Address := inv.cache_addr _ _ hlk
  have hanyp : processed.any (fun g' => g'.Address == g.Address) = true := by
    cases hany : processed.any (fun g' => g'.Address == g.Address) with
    | true => rfl
    | false =>
      have := inv.cache_none g.Address ((find?_none_iff_any_false _ _).mpr hany)
      rw [this] at hlk
      cases hlk
  have hcache_none : ∀ a,
      (processed ++ [g]).find? (fun g' => g'.Address == a) = none →
      alookup a s.addrToUps = none := by
    intro a h
    apply inv.cache_none
    rw [List.find?_eq_none] at h ⊢
    exact fun x hx => h x (List.mem_append_left _ hx)
  have hcache_first : ∀ a g₀,
      (processed ++ [g]).find? (fun g' => g'.Address == a) = some g₀ →
      ok a = true →
      ∃ k, alookup a s.addrToUps =
        some ⟨k, a, mkMainOpts g₀.Name timeout boot⟩ := by
    intro a g₀ h ha
    rw [List.find?_append] at h
    cases hp : processed.find? (fun g' => g'.Address == a) with
    | some g₁ =>
      rw [hp, Option.or_some] at h
      injection h with h
      subst h
      exact inv.cache_first a g₁ hp ha
    | none =>
      rw [hp, Option.none_or, List.find?_singleton] at h
      split at h
      · rename_i hmatch
        injection h with h
        have haddr : g.Address = a := by simpa using hmatch
        rw [← haddr] at hp
        have := inv.cache_none g.Address ((find?_none_iff_any_false _ _).mpr
          ((find?_none_iff_any_false _ _).mp hp))
        rw [this] at hlk
        cases hlk
      · cases h
  have herrs : s.errs =
      ((processed ++ [g]).filter (fun g' => !(ok g'.Address))).map
        (fun g' => GroupError.mk g'.Name g'.Address) := by
    rw [List.filter_append, List.map_append, inv.errs_eq]
    have : [g].filter (fun g' => !(ok g'.Address)) = [] := by
      simp [hok]
    rw [this]
    simp
  have hatt : ∀ a, ok a = true →
      (s.attempts ++ []).count a =
        if (processed ++ [g]).any (fun g' => g'.Address == a) = true
        then 1 else 0 := by
    intro a ha
    rw [List.count_append, List.any_append]
    cases hga : (g.Address == a) with
    | false =>
      have hanyg : ([g].any fun g' => g'.Address == a) = false := by
        simp [beq_eq_false_iff_ne.mp hga]
      rw [hanyg, Bool.or_false, inv.attempts_count a ha]
      simp
    | true =>
      have haeq : g.Address = a := beq_iff_eq.mp hga
      rw [← haeq] at ha ⊢
      rw [inv.attempts_count g.Address ha, hanyp]
      simp
  simp only [newUpstreamsStep, newUpstreamOrCached, hlk]
  split
  · -- default group
    constructor
    case cache_ok => exact inv.cache_ok
    case cache_addr => exact inv.cache_addr
    case cache_none => exact hcache_none
    case cache_first => exact hcache_first
    case reach =>
      intro v hv
      rcases List.mem_append.mp hv with hvt | hvp
      · rcases mem_collectTable_aset hvt with hvt' | hvt'
        · exact inv.reach v (List.mem_append_left _ hvt')
        · rcases mem_collectEntry_ups hvt' with hvt'' | hvt''
          · exact inv.reach v (List.mem_append_left _ (mem_collectEntry_getD hvt''))
          · subst hvt''
            rw [hu_addr]
            exact hlk
      · exact inv.reach v (List.mem_append_right _ hvp)
    case dom_eq =>
      intro p c h
      by_cases hp : p = NetPfx.zero
      · subst hp
        rw [alookup_aset_self] at h
        cases h
        show ((alookup NetPfx.zero s.ups).getD
          ProxyUpstreamConfig.empty).DomainReservedUpstreams = _
        cases hlk0 : alookup NetPfx.zero s.ups with
        | none => rfl
        | some c₀ => exact inv.dom_eq _ _ hlk0
      · rw [alookup_aset_ne _ hp] at h
        exact inv.dom_eq _ _ h
    case zero_mem => exact alookup_isSome_aset _ _ inv.zero_mem
    case errs_eq => exact herrs
    case attempts_count => exact hatt
  · split
    · -- private group
      constructor
      case cache_ok => exact inv.cache_ok
      case cache_addr => exact inv.cache_addr
      case cache_none => exact hcache_none
      case cache_first => exact hcache_first
      case reach =>
        intro v hv
        rcases List.mem_append.mp hv with hvt | hvp
        · exact inv.reach v (List.mem_append_left _ hvt)
        · rcases List.mem_append.mp hvp with hvp' | hvp'
          · cases hpv : s.privateUps with
            | none =>
              rw [hpv] at hvp'
              simp [ProxyUpstreamConfig.empty] at hvp'
            | some c =>
              rw [hpv] at hvp'
              apply inv.reach
              apply List.mem_append_right
              show v ∈ (match s.privateUps with
                | some c => c.Upstreams
                | none => [])
              rw [hpv]
              exact hvp'
          · rw [List.mem_singleton.mp hvp', hu_addr]
            exact hlk
      case dom_eq => exact inv.dom_eq
      case zero_mem => exact inv.zero_mem
      case errs_eq => exact herrs
      case attempts_count => exact hatt
    · -- named group
      constructor
      case cache_ok => exact inv.cache_ok
      case cache_addr => exact inv.cache_addr
      case cache_none => exact hcache_none
      case cache_first => exact hcache_first
      case reach =>
        intro v hv
        rcases List.mem_append.mp hv with hvt | hvp
        · rw [UpstreamGroupConfig.addGroup] at hvt
          rcases mem_collectTable_foldl _ _ _ hvt with hvt' | hvt'
          · exact inv.reach v (List.mem_append_left _ hvt')
          · subst hvt'
            rw [hu_addr]
            exact hlk
        · exact inv.reach v (List.mem_append_right _ hvp)
      case dom_eq =>
        show ∀ p c, alookup p (UpstreamGroupConfig.addGroup g _ u) = some c → _
        rw [UpstreamGroupConfig.addGroup]
        exact dom_eq_foldl _ _ inv.dom_eq
      case zero_mem =>
        show (alookup NetPfx.zero (UpstreamGroupConfig.addGroup g _ u)).isSome = true
        rw [UpstreamGroupConfig.addGroup]
        exact isSome_foldl _ _ inv.zero_mem
      case errs_eq => exact herrs
      case attempts_count => exact hatt



theorem step_inv_new {ok : String → Bool} {timeout boot : Nat}
    {processed : List UpstreamGroupConfig} {s : BuildState}
    {g : UpstreamGroupConfig}
    (inv : BuildInv ok timeout boot processed s)
    (hlk : alookup g.Address s.addrToUps = none)
    (hok : ok g.Address = true) :
    BuildInv ok timeout boot (processed ++ [g])
      (newUpstreamsStep ok timeout boot s g) := by
  set u : Upstream :=
    ⟨s.fresh, g.Address, mkMainOpts g.Name timeout boot⟩ with hu
  have hfind : processed.find? (fun g' => g'.Address == g.Address) = none := by
    cases hp : processed.find? (fun g' => g'.Address == g.Address) with
    | none => rfl
    | some g₁ =>
      obtain ⟨k, hk⟩ := inv.cache_first _ _ hp hok
      rw [hk] at hlk
      cases hlk
  have hanyp : processed.any (fun g' => g'.Address == g.Address) = false :=
    (find?_none_iff_any_false _ _).mp hfind
  have hcache_ok : ∀ a u',
      alookup a (aset g.Address u s.addrToUps) = some u' → ok a = true := by
    intro a u' h
    by_cases ha : a = g.Address
    · rw [ha]; exact hok
    · rw [alookup_aset_ne _ ha] at h
      exact inv.cache_ok _ _ h
  have hcache_addr : ∀ a u',
      alookup a (aset g.Address u s.addrToUps) = some u' → u'.addr = a := by
    intro a u' h
    by_cases ha : a = g.Address
    · subst ha
      rw [alookup_aset_self] at h
      injection h with h
      rw [← h]
    · rw [alookup_aset_ne _ ha] at h
      exact inv.cache_addr _ _ h
  have hcache_none : ∀ a,
      (processed ++ [g]).find? (fun g' => g'.Address == a) = none →
      alookup a (aset g.Address u s.addrToUps) = none := by
    intro a h
    rw [List.find?_eq_none] at h
    have hga : a ≠ g.Address := by
      intro hcc
      have := h g (List.mem_append_right _ (List.mem_singleton_self g))
      rw [hcc] at this
      simp at this
    rw [alookup_aset_ne _ (fun hc => hga hc)]
    apply inv.cache_none
    rw [List.find?_eq_none]
    exact fun x hx => h x (List.mem_append_left _ hx)
  have hcache_first : ∀ a g₀,
      (processed ++ [g]).find? (fun g' => g'.Address == a) = some g₀ →
      ok a = true →
      ∃ k, alookup a (aset g.Address u s.addrToUps) =
        some ⟨k, a, mkMainOpts g₀.Name timeout boot⟩ := by
    intro a g₀ h ha
    rw [List.find?_append] at h
    cases hp : processed.find? (fun g' => g'.Address == a) with
    | some g₁ =>
      rw [hp, Option.or_some] at h
      injection h with h
      subst h
      have hga : a ≠ g.Address := by
        intro hcc
        rw [hcc, hfind] at hp
        cases hp
      rw [alookup_aset_ne _ hga]
      exact inv.cache_first a g₁ hp ha
    | none =>
      rw [hp, Option.none_or, List.find?_singleton] at h
      split at h
      · rename_i hmatch
        injection h with h
        rw [← h]
        have haddr : g.Address = a := by simpa using hmatch
        rw [← haddr]
        refine ⟨s.fresh, ?_⟩
        rw [alookup_aset_self]
      · cases h
  have hreach_cache : ∀ v : Upstream, alookup v.addr s.addrToUps = some v →
      alookup v.addr (aset g.Address u s.addrToUps) = some v := by
    intro v hv
    have hne : v.addr ≠ g.Address := by
      intro hcc
      rw [hcc, hlk] at hv
      cases hv
    rw [alookup_aset_ne _ hne]
    exact hv
  have hu_reach : alookup u.addr (aset g.Address u s.addrToUps) = some u := by
    rw [hu]
    exact alookup_aset_self _ _ _
  have herrs : s.errs =
      ((processed ++ [g]).filter (fun g' => !(ok g'.Address))).map
        (fun g' => GroupError.mk g'.Name g'.Address) := by
    rw [List.filter_append, List.map_append, inv.errs_eq]
    have : [g].filter (fun g' => !(ok g'.Address)) = [] := by
      simp [hok]
    rw [this]
    simp
  have hatt : ∀ a, ok a = true →
      (s.attempts ++ [g.Address]).count a =
        if (processed ++ [g]).any (fun g' => g'.Address == a) = true
        then 1 else 0 := by
    intro a ha
    rw [List.count_append, List.any_append]
    cases hga : (g.Address == a) with
    | false =>
      have hanyg : ([g].any fun g' => g'.Address == a) = false := by
        simp [beq_eq_false_iff_ne.mp hga]
      have hcnt : [g.Address].count a = 0 := by
        simp [List.count_singleton', beq_eq_false_iff_ne.mp hga]
      rw [hanyg, Bool.or_false, hcnt, inv.attempts_count a ha]
      simp
    | true =>
      have haeq : g.Address = a := beq_iff_eq.mp hga
      subst haeq
      have hcnt : [g.Address].count g.Address = 1 := by
        simp [List.count_singleton']
      rw [hcnt, inv.attempts_count g.Address ha, hanyp]
      simp
  simp only [newUpstreamsStep, newUpstreamOrCached, hlk, addressToUpstream,
    hok, if_true]
  split
  · -- default group
    constructor
    case cache_ok => exact hcache_ok
    case cache_addr => exact hcache_addr
    case cache_none => exact hcache_none
    case cache_first => exact hcache_first
    case reach =>
      intro v hv
      rcases List.mem_append.mp hv with hvt | hvp
      · rcases mem_collectTable_aset hvt with hvt' | hvt'
        · exact hreach_cache v (inv.reach v (List.mem_append_left _ hvt'))
        · rcases mem_collectEntry_ups hvt' with hvt'' | hvt''
          · exact hreach_cache v
              (inv.reach v (List.mem_append_left _ (mem_collectEntry_getD hvt'')))
          · subst hvt''
            exact hu_reach
      · exact hreach_cache v (inv.reach v (List.mem_append_right _ hvp))
    case dom_eq =>
      intro p c h
      by_cases hp : p = NetPfx.zero
      · subst hp
        rw [alookup_aset_self] at h
        cases h
        show ((alookup NetPfx.zero s.ups).getD
          ProxyUpstreamConfig.empty).DomainReservedUpstreams = _
        cases hlk0 : alookup NetPfx.zero s.ups with
        | none => rfl
        | some c₀ => exact inv.dom_eq _ _ hlk0
      · rw [alookup_aset_ne _ hp] at h
        exact inv.dom_eq _ _ h
    case zero_mem => exact alookup_isSome_aset _ _ inv.zero_mem
    case errs_eq => exact herrs
    case attempts_count => exact hatt
  · split
    · -- private group
      constructor
      case cache_ok => exact hcache_ok
      case cache_addr => exact hcache_addr
      case cache_none => exact hcache_none
      case cache_first => exact hcache_first
      case reach =>
        intro v hv
        rcases List.mem_append.mp hv with hvt | hvp
        · exact hreach_cache v (inv.reach v (List.mem_append_left _ hvt))
        · rcases List.mem_append.mp hvp with hvp' | hvp'
          · cases hpv : s.privateUps with
            | none =>
              rw [hpv] at hvp'
              simp [ProxyUpstreamConfig.empty] at hvp'
            | some c =>
              rw [hpv] at hvp'
              apply hreach_cache
              apply inv.reach
              apply List.mem_append_right
              show v ∈ (match s.privateUps with
                | some c => c.Upstreams
                | none => [])
              rw [hpv]
              exact hvp'
          · rw [List.mem_singleton.mp hvp']
            exact hu_reach
      case dom_eq => exact inv.dom_eq
      case zero_mem => exact inv.zero_mem
      case errs_eq => exact herrs
      case attempts_count => exact hatt
    · -- named group
      constructor
      case cache_ok => exact hcache_ok
      case cache_addr => exact hcache_addr
      case cache_none => exact hcache_none
      case cache_first => exact hcache_first
      case reach =>
        intro v hv
        rcases List.mem_append.mp hv with hvt | hvp
        · rw [UpstreamGroupConfig.addGroup] at hvt
          rcases mem_collectTable_foldl _ _ _ hvt with hvt' | hvt'
          · exact hreach_cache v (inv.reach v (List.mem_append_left _ hvt'))
          · subst hvt'
            exact hu_reach
        · exact hreach_cache v (inv.reach v (List.mem_append_right _ hvp))
      case dom_eq =>
        show ∀ p c, alookup p (UpstreamGroupConfig.addGroup g _ u) = some c → _
        rw [UpstreamGroupConfig.addGroup]
        exact dom_eq_foldl _ _ inv.dom_eq
      case zero_mem =>
        show (alookup NetPfx.zero
          (UpstreamGroupConfig.addGroup g _ u)).isSome = true
        rw [UpstreamGroupConfig.addGroup]
        exact isSome_foldl _ _ inv.zero_mem
      case errs_eq => exact herrs
      case attempts_count => exact hatt



theorem step_inv {ok : String → Bool} {timeout boot : Nat}
    {processed : List UpstreamGroupConfig} {s : BuildState}
    (g : UpstreamGroupConfig) (inv : BuildInv ok timeout boot processed s) :
    BuildInv ok timeout boot (processed ++ [g])
      (newUpstreamsStep ok timeout boot s g) := by
  cases hlk : alookup g.Address s.addrToUps with
  | some u => exact step_inv_hit inv hlk
  | none =>
    cases hok : ok g.Address with
    | true => exact step_inv_new inv hlk hok
    | false => exact step_inv_fail inv hlk hok

theorem foldl_inv {ok : String → Bool} {timeout boot : Nat} :
    ∀ (gs processed : List UpstreamGroupConfig) (s : BuildState),
      BuildInv ok timeout boot processed s →
      BuildInv ok timeout boot (processed ++ gs)
        (gs.foldl (newUpstreamsStep ok timeout boot) s) := by
  intro gs
  induction gs with
  | nil =>
    intro processed s h
    simpa using h
  | cons g rest ih =>
    intro processed s h
    have h' := ih (processed ++ [g]) _ (step_inv g h)
    rw [List.append_assoc] at h'
    simpa using h'

theorem init_inv (ok : String → Bool) (timeout boot : Nat) :
    BuildInv ok timeout boot [] initBuildState := by
  constructor
  case cache_ok =>
    intro a u h
    simp [alookup, initBuildState] at h
  case cache_addr =>
    intro a u h
    simp [alookup, initBuildState] at h
  case cache_none =>
    intro a _
    rfl
  case cache_first =>
    intro a g h
    simp at h
  case reach =>
    intro v hv
    simp [collectUps, collectTable, collectEntry, initBuildState,
      ProxyUpstreamConfig.empty] at hv
  case dom_eq =>
    intro p c h
    simp only [initBuildState, alookup] at h
    split at h
    · cases h
      rfl
    · cases h
  case zero_mem => rfl
  case errs_eq => rfl
  case attempts_count =>
    intro a _
    simp [initBuildState]

theorem newUpstreams_inv (ok : String → Bool) (boot : Nat)
    (conf : UpstreamConfig) :
    BuildInv ok conf.Timeout boot conf.Groups (newUpstreams ok boot conf) := by
  have h := foldl_inv conf.Groups [] initBuildState
    (init_inv ok conf.Timeout boot)
  simpa [newUpstreams] using h



theorem step_fail_eq {ok : String → Bool} {timeout boot : Nat}
    {s : BuildState} {g : UpstreamGroupConfig}
    (hlk : alookup g.Address s.addrToUps = none)
    (hok : ok g.Address = false) :
    newUpstreamsStep ok timeout boot s g =
      { s with errs := s.errs ++ [⟨g.Name, g.Address⟩],
               attempts := s.attempts ++ [g.Address] } := by
  simp only [newUpstreamsStep, newUpstreamOrCached, hlk, addressToUpstream,
    hok]
  rfl

theorem step_addrToUps (ok : String → Bool) (timeout boot : Nat)
    (s : BuildState) (g : UpstreamGroupConfig) :
    (newUpstreamsStep ok timeout boot s g).addrToUps =
      (newUpstreamOrCached ok g.Address s.addrToUps
        (mkMainOpts g.Name timeout boot) s.fresh).2.1 := by
  rcases hm : newUpstreamOrCached ok g.Address s.addrToUps
    (mkMainOpts g.Name timeout boot) s.fresh with ⟨r, c', f', att⟩
  cases r
  · simp only [newUpstreamsStep, hm]
  · simp only [newUpstreamsStep, hm]
    split_ifs <;> rfl

theorem newUpstreamOrCached_cache (ok : String → Bool) (addr : String)
    (cache : List (String × Upstream)) (opts : Options) (fresh : Nat) :
    (newUpstreamOrCached ok addr cache opts fresh).2.1 = cache ∨
    (ok addr = true ∧ (newUpstreamOrCached ok addr cache opts fresh).2.1 =
      aset addr ⟨fresh, addr, opts⟩ cache) := by
  unfold newUpstreamOrCached addressToUpstream
  cases alookup addr cache
  · cases h : ok addr
    · left
      simp
    · right
      exact ⟨rfl, by simp⟩
  · left
    rfl

theorem cache_not_ok_step {ok : String → Bool} {timeout boot : Nat}
    {s : BuildState} (g : UpstreamGroupConfig)
    (H : ∀ a, ok a = false → alookup a s.addrToUps = none) :
    ∀ a, ok a = false →
      alookup a (newUpstreamsStep ok timeout boot s g).addrToUps = none := by
  intro a ha
  rw [step_addrToUps]
  rcases newUpstreamOrCached_cache ok g.Address s.addrToUps
    (mkMainOpts g.Name timeout boot) s.fresh with h | ⟨hok, h⟩
  · rw [h]
    exact H a ha
  · rw [h]
    have hne : a ≠ g.Address := by
      intro hcc
      rw [hcc, hok] at ha
      cases ha
    rw [alookup_aset_ne _ hne]
    exact H a ha

theorem step_core_congr {ok : String → Bool} {timeout boot : Nat}
    {s₁ s₂ : BuildState} (g : UpstreamGroupConfig)
    (h : coreOf s₁ = coreOf s₂) :
    coreOf (newUpstreamsStep ok timeout boot s₁ g) =
      coreOf (newUpstreamsStep ok timeout boot s₂ g) := by
  obtain ⟨u₁, p₁, c₁, f₁, e₁, a₁⟩ := s₁
  obtain ⟨u₂, p₂, c₂, f₂, e₂, a₂⟩ := s₂
  simp only [coreOf, Prod.mk.injEq] at h
  obtain ⟨rfl, rfl, rfl, rfl⟩ := h
  rcases hm : newUpstreamOrCached ok g.Address c₁
    (mkMainOpts g.Name timeout boot) f₁ with ⟨r, c', f', att⟩
  cases r
  · simp only [newUpstreamsStep, hm]
    rfl
  · simp only [newUpstreamsStep, hm]
    split_ifs <;> rfl

theorem foldl_core_congr {ok : String → Bool} {timeout boot : Nat} :
    ∀ (gs : List UpstreamGroupConfig) (s₁ s₂ : BuildState),
      coreOf s₁ = coreOf s₂ →
      coreOf (gs.foldl (newUpstreamsStep ok timeout boot) s₁) =
        coreOf (gs.foldl (newUpstreamsStep ok timeout boot) s₂) := by
  intro gs
  induction gs with
  | nil => exact fun s₁ s₂ h => h
  | cons g rest ih => exact fun s₁ s₂ h => ih _ _ (step_core_congr g h)

theorem foldl_filter_ok {ok : String → Bool} {timeout boot : Nat} :
    ∀ (gs : List UpstreamGroupConfig) (s : BuildState),
      (∀ a, ok a = false → alookup a s.addrToUps = none) →
      coreOf (gs.foldl (newUpstreamsStep ok timeout boot) s) =
        coreOf ((gs.filter (fun g => ok g.Address)).foldl
          (newUpstreamsStep ok timeout boot) s) := by
  intro gs
  induction gs with
  | nil => exact fun s _ => rfl
  | cons g rest ih =>
    intro s H
    cases hok : ok g.Address with
    | true =>
      rw [List.filter_cons_of_pos (by simp [hok])]
      exact ih _ (cache_not_ok_step g H)
    | false =>
      rw [List.filter_cons_of_neg (by simp [hok])]
      calc coreOf (rest.foldl (newUpstreamsStep ok timeout boot)
              (newUpstreamsStep ok timeout boot s g))
          = coreOf (rest.foldl (newUpstreamsStep ok timeout boot) s) := by
            apply foldl_core_congr
            rw [step_fail_eq (H g.Address hok) hok]
            rfl
        _ = coreOf ((rest.filter (fun g => ok g.Address)).foldl
              (newUpstreamsStep ok timeout boot) s) := ih _ H



/-- C7: the routing table returned by `newUpstreams` always contains an
entry under the zero-value client prefix key, for every input configuration
(including an empty group list and configurations in which every group's
construction fails): it is initialized before any group is processed and
group processing only ever adds or updates entries, never removes one. -/
theorem c7_default_entry_present (ok : String → Bool) (boot : Nat)
    (conf : UpstreamConfig) :
    (alookup NetPfx.zero (newUpstreams ok boot conf).ups).isSome = true :=
  (newUpstreams_inv ok boot conf).zero_mem

/-- C3: for every client entry of the built routing table, the
reserved-domain map and the specified-domain map are equal: every
`addGroup` call appends the same upstream under the same normalised key to
both maps, so the two maps hold identical content by construction. -/
theorem c3_domain_maps_identical (ok : String → Bool) (boot : Nat)
    (conf : UpstreamConfig) (p : NetPfx) (c : ProxyUpstreamConfig)
    (h : alookup p (newUpstreams ok boot conf).ups = some c) :
    c.DomainReservedUpstreams = c.SpecifiedDomainUpstreams :=
  (newUpstreams_inv ok boot conf).dom_eq p c h

/-- C1: when two groups reference the identical upstream address string and
that address constructs successfully, exactly one construction is performed
for it during `newUpstreams` (the attempt log holds it once), and every
handle reachable from the routing structures under that address is the one
cached handle. -/
theorem c1_unique_handle_per_address (ok : String → Bool) (boot : Nat)
    (conf : UpstreamConfig) (a : String) (i j : Nat)
    (g1 g2 : UpstreamGroupConfig) (hij : i ≠ j)
    (hi : conf.Groups[i]? = some g1) (hj : conf.Groups[j]? = some g2)
    (ha1 : g1.Address = a) (ha2 : g2.Address = a) (hok : ok a = true) :
    (newUpstreams ok boot conf).attempts.count a = 1 ∧
    ∃ u, alookup a (newUpstreams ok boot conf).addrToUps = some u ∧
      ∀ v ∈ collectUps (newUpstreams ok boot conf), v.addr = a → v = u := by
  have inv := newUpstreams_inv ok boot conf
  have hmem : g1 ∈ conf.Groups := by
    obtain ⟨hlt, rfl⟩ := List.getElem?_eq_some.mp hi
    exact List.getElem_mem hlt
  have hany : conf.Groups.any (fun g' => g'.Address == a) = true :=
    List.any_eq_true.mpr ⟨g1, hmem, by simp [ha1]⟩
  constructor
  · rw [inv.attempts_count a hok, hany]
    rfl
  · cases hf : conf.Groups.find? (fun g' => g'.Address == a) with
    | none =>
      rw [(find?_none_iff_any_false _ _).mp hf] at hany
      cases hany
    | some g0 =>
      obtain ⟨k, hk⟩ := inv.cache_first a g0 hf hok
      refine ⟨_, hk, fun v hv hva => ?_⟩
      have hr := inv.reach v hv
      rw [hva, hk] at hr
      exact (Option.some.inj hr).symm

/-- C10: a pool lookup that hits the cache ignores the options argument
entirely, and in `newUpstreams` the handle cached for an address carries
the options (logger group, timeout, bootstrap resolver) of the first group
referencing that address, as does every handle reachable from the routing
structures under that address. -/
theorem c10_first_caller_options (ok : String → Bool) :
    (∀ (addr : String) (cache : List (String × Upstream)) (u : Upstream)
      (fresh : Nat) (opts₁ opts₂ : Options),
      alookup addr cache = some u →
      newUpstreamOrCached ok addr cache opts₁ fresh =
        newUpstreamOrCached ok addr cache opts₂ fresh ∧
      (newUpstreamOrCached ok addr cache opts₁ fresh).1 = some u) ∧
    (∀ (boot : Nat) (conf : UpstreamConfig) (a : String)
      (g : UpstreamGroupConfig),
      conf.Groups.find? (fun g' => g'.Address == a) = some g →
      ok a = true →
      (∃ k, alookup a (newUpstreams ok boot conf).addrToUps =
        some ⟨k, a, mkMainOpts g.Name conf.Timeout boot⟩) ∧
      ∀ v ∈ collectUps (newUpstreams ok boot conf), v.addr = a →
        v.opts = mkMainOpts g.Name conf.Timeout boot) := by
  constructor
  · intro addr cache u fresh opts₁ opts₂ h
    unfold newUpstreamOrCached
    rw [h]
    exact ⟨rfl, rfl⟩
  · intro boot conf a g hf hok
    have inv := newUpstreams_inv ok boot conf
    obtain ⟨k, hk⟩ := inv.cache_first a g hf hok
    refine ⟨⟨k, hk⟩, fun v hv hva => ?_⟩
    have hr := inv.reach v hv
    rw [hva, hk] at hr
    rw [← Option.some.inj hr]

/-- C5: the pool lookup `newUpstreamOrCached` returns the cached handle and
leaves the cache unchanged on a hit, stores a newly constructed handle
under the exact address string on a successful miss, and on a failed
construction returns the error with the cache unchanged, so that a later
call with the same address attempts construction again. -/
theorem c5_pool_contract (ok : String → Bool) (addr : String)
    (cache : List (String × Upstream)) (opts : Options) (fresh : Nat) :
    (∀ u, alookup addr cache = some u →
      newUpstreamOrCached ok addr cache opts fresh = (some u, cache, fresh, [])) ∧
    (alookup addr cache = none → ok addr = true →
      newUpstreamOrCached ok addr cache opts fresh =
        (some ⟨fresh, addr, opts⟩, aset addr ⟨fresh, addr, opts⟩ cache,
          fresh + 1, [addr])) ∧
    (alookup addr cache = none → ok addr = false →
      newUpstreamOrCached ok addr cache opts fresh =
        (none, cache, fresh, [addr]) ∧
      ∀ (opts' : Options) (fresh' : Nat),
        (newUpstreamOrCached ok addr
          (newUpstreamOrCached ok addr cache opts fresh).2.1
          opts' fresh').2.2.2 = [addr]) := by
  refine ⟨?_, ?_, ?_⟩
  · intro u h
    unfold newUpstreamOrCached
    rw [h]
  · intro h hok
    unfold newUpstreamOrCached addressToUpstream
    rw [h, hok]
    rfl
  · intro h hok
    have heq : newUpstreamOrCached ok addr cache opts fresh =
        (none, cache, fresh, [addr]) := by
      unfold newUpstreamOrCached addressToUpstream
      rw [h, hok]
      rfl
    refine ⟨heq, fun opts' fresh' => ?_⟩
    rw [heq]
    show (newUpstreamOrCached ok addr cache opts' fresh').2.2.2 = [addr]
    unfold newUpstreamOrCached addressToUpstream
    rw [h, hok]
    rfl



/-- C4: `newUpstreams` does not abort on group construction failures: the
routing table and private configuration are those obtained from the
configuration restricted to the successfully constructing groups, the
collected error list has exactly one entry per failed group annotated with
that group's name, and the joined error is nil (the list is empty) exactly
when no group fails. -/
theorem c4_nonfatal_error_collection (ok : String → Bool) (boot : Nat)
    (conf : UpstreamConfig) :
    (newUpstreams ok boot conf).ups =
      (newUpstreams ok boot
        ⟨conf.Groups.filter (fun g => ok g.Address), conf.Timeout⟩).ups ∧
    (newUpstreams ok boot conf).privateUps =
      (newUpstreams ok boot
        ⟨conf.Groups.filter (fun g => ok g.Address), conf.Timeout⟩).privateUps ∧
    (newUpstreams ok boot
      ⟨conf.Groups.filter (fun g => ok g.Address), conf.Timeout⟩).errs = [] ∧
    (newUpstreams ok boot conf).errs =
      (conf.Groups.filter (fun g => !(ok g.Address))).map
        (fun g => GroupError.mk g.Name g.Address) ∧
    ((newUpstreams ok boot conf).errs = [] ↔
      ∀ g ∈ conf.Groups, ok g.Address = true) := by
  have hcore := @foldl_filter_ok ok conf.Timeout boot conf.Groups
    initBuildState (fun a _ => rfl)
  simp only [coreOf, Prod.mk.injEq] at hcore
  obtain ⟨h1, h2, _, _⟩ := hcore
  have herrs := (newUpstreams_inv ok boot conf).errs_eq
  refine ⟨h1, h2, ?_, herrs, ?_⟩
  · have h := (newUpstreams_inv ok boot
      ⟨conf.Groups.filter (fun g => ok g.Address), conf.Timeout⟩).errs_eq
    rw [h]
    show ((conf.Groups.filter (fun g => ok g.Address)).filter
      (fun g => !(ok g.Address))).map _ = []
    rw [List.filter_filter]
    have hnil : conf.Groups.filter
        (fun g => !(ok g.Address) && ok g.Address) = [] := by
      rw [List.filter_eq_nil_iff]
      intro g _
      rw [Bool.not_and_self]
      simp
    rw [hnil]
    rfl
  · rw [herrs]
    constructor
    · intro h g hg
      have hf : conf.Groups.filter (fun g => !(ok g.Address)) = [] :=
        List.map_eq_nil_iff.mp h
      have := List.filter_eq_nil_iff.mp hf g hg
      simpa using this
    · intro h
      have hf : conf.Groups.filter (fun g => !(ok g.Address)) = [] := by
        rw [List.filter_eq_nil_iff]
        intro g hg
        simp [h g hg]
      rw [hf]
      rfl

/-- C2: for every match criterion with a non-empty question-domain suffix,
the upstream is stored in both domain maps of the criterion's client entry
under the key `dns.Fqdn(strings.ToLower(domain))`; that key always ends in
a dot, is insensitive to the case of the input, and (when the input neither
ends in a dot nor in a backslash) to the presence of a trailing dot, so the
inputs `MyCompany.LOCAL` and `mycompany.local.` yield the same key. -/
theorem c2_domain_key_normalisation :
    (∀ (u : Upstream) (configs : List (NetPfx × ProxyUpstreamConfig))
      (m : MatchCriteria), m.QuestionDomain ≠ "" →
      ∃ entry, alookup m.Client (addCriterion u configs m) = some entry ∧
        alookup (normKey m.QuestionDomain) entry.DomainReservedUpstreams =
          some ((alookup (normKey m.QuestionDomain)
            ((alookup m.Client configs).getD
              ProxyUpstreamConfig.empty).DomainReservedUpstreams).getD []
            ++ [u]) ∧
        alookup (normKey m.QuestionDomain) entry.SpecifiedDomainUpstreams =
          some ((alookup (normKey m.QuestionDomain)
            ((alookup m.Client configs).getD
              ProxyUpstreamConfig.empty).SpecifiedDomainUpstreams).getD []
            ++ [u])) ∧
    (∀ d : String, (normKey d).data.getLast? = some '.') ∧
    (∀ d : String, normKey (goToLower d) = normKey d) ∧
    (∀ d : String, d.data.getLast? ≠ some '.' →
      d.data.getLast? ≠ some '\\' → normKey (d ++ ".") = normKey d) ∧
    normKey "MyCompany.LOCAL" = normKey "mycompany.local." := by
  refine ⟨?_, normKey_getLast, normKey_goToLower, normKey_append_dot,
    by decide⟩
  intro u configs m hd
  simp only [addCriterion, if_neg hd]
  refine ⟨_, alookup_aset_self _ _ _, ?_, ?_⟩
  · show alookup _ (appendAt _ u _) = _
    unfold appendAt
    rw [alookup_aset_self]
  · show alookup _ (appendAt _ u _) = _
    unfold appendAt
    rw [alookup_aset_self]

/-- C9: frame property of the per-criterion step of `addGroup`: entries of
the table under every client prefix other than the criterion's are
unchanged; for the criterion's client, an empty question-domain suffix
extends only the catch-all list and leaves both domain maps unchanged,
while a non-empty suffix extends only the two domain maps (under the
normalised key) and leaves the catch-all list unchanged. -/
theorem c9_addCriterion_frame (u : Upstream)
    (configs : List (NetPfx × ProxyUpstreamConfig)) (m : MatchCriteria) :
    (∀ p, p ≠ m.Client →
      alookup p (addCriterion u configs m) = alookup p configs) ∧
    (m.QuestionDomain = "" →
      alookup m.Client (addCriterion u configs m) =
        some { (alookup m.Client configs).getD ProxyUpstreamConfig.empty with
          Upstreams := ((alookup m.Client configs).getD
            ProxyUpstreamConfig.empty).Upstreams ++ [u] }) ∧
    (m.QuestionDomain ≠ "" →
      alookup m.Client (addCriterion u configs m) =
        some { (alookup m.Client configs).getD ProxyUpstreamConfig.empty with
          DomainReservedUpstreams :=
            appendAt (normKey m.QuestionDomain) u
              ((alookup m.Client configs).getD
                ProxyUpstreamConfig.empty).DomainReservedUpstreams
          SpecifiedDomainUpstreams :=
            appendAt (normKey m.QuestionDomain) u
              ((alookup m.Client configs).getD
                ProxyUpstreamConfig.empty).SpecifiedDomainUpstreams }) := by
  refine ⟨?_, ?_, ?_⟩
  · intro p hp
    simp only [addCriterion]
    split
    · exact alookup_aset_ne _ hp _
    · exact alookup_aset_ne _ hp _
  · intro hd
    simp only [addCriterion, if_pos hd]
    exact alookup_aset_self _ _ _
  · intro hd
    simp only [addCriterion, if_neg hd]
    exact alookup_aset_self _ _ _



theorem bindAttempts_all_fail {E : Type} (bind : Nat → Option E)
    (interval : Nat) :
    ∀ (n i : Nat), (∀ k, i ≤ k → k ≤ i + n → (bind k).isSome = true) →
      bindAttempts bind interval i n =
        (bind (i + n), n + 1, List.replicate n interval) := by
  intro n
  induction n with
  | zero =>
    intro i _
    simp [bindAttempts]
  | succ n ih =>
    intro i H
    have hi : (bind i).isSome = true := H i (Nat.le_refl i) (by omega)
    cases hb : bind i with
    | none => rw [hb] at hi; cases hi
    | some e =>
      simp only [bindAttempts, hb]
      rw [ih (i + 1) (fun k hk1 hk2 => H k (by omega) (by omega))]
      have hidx : i + 1 + n = i + (n + 1) := by omega
      rw [hidx, List.replicate_succ]

theorem bindAttempts_success {E : Type} (bind : Nat → Option E)
    (interval : Nat) :
    ∀ (n i j : Nat), i ≤ j → j ≤ i + n → bind j = none →
      (∀ k, i ≤ k → k < j → (bind k).isSome = true) →
      bindAttempts bind interval i n =
        (none, j - i + 1, List.replicate (j - i) interval) := by
  intro n
  induction n with
  | zero =>
    intro i j h1 h2 hj _
    have : j = i := by omega
    subst this
    simp [bindAttempts, hj]
  | succ n ih =>
    intro i j h1 h2 hj H
    by_cases hji : j = i
    · subst hji
      simp [bindAttempts, hj]
    · have hi : (bind i).isSome = true := H i (Nat.le_refl i) (by omega)
      cases hb : bind i with
      | none => rw [hb] at hi; cases hi
      | some e =>
        simp only [bindAttempts, hb]
        rw [ih (i + 1) j (by omega) (by omega) hj
          (fun k hk1 hk2 => H k (by omega) hk2)]
        have hsub : j - i = (j - (i + 1)) + 1 := by omega
        rw [hsub]
        refine congrArg₂ _ rfl (congrArg₂ _ rfl ?_)
        rw [List.replicate_succ]

/-- C8: the bind retry executor under the converted configuration: with
retry disabled exactly one attempt is performed and its result returned
unchanged regardless of the count; with retry enabled and a bind that fails
on every allowed attempt, `Count + 1` attempts are performed, spaced by the
constant `Interval`, and the error of the last attempt is returned; with
retry enabled and a first success at attempt `j`, success is returned
immediately after `j + 1` attempts. -/
theorem c8_bind_retry {E : Type} (bind : Nat → Option E)
    (y : bindRetryConfig) :
    (y.Enabled = false →
      bindWithRetry bind y.toInternal = (bind 0, 1, [])) ∧
    (y.Enabled = true → (∀ i, i ≤ y.Count → (bind i).isSome = true) →
      bindWithRetry bind y.toInternal =
        (bind y.Count, y.Count + 1, List.replicate y.Count y.Interval)) ∧
    (y.Enabled = true → ∀ j, j ≤ y.Count → bind j = none →
      (∀ i, i < j → (bind i).isSome = true) →
      bindWithRetry bind y.toInternal =
        (none, j + 1, List.replicate j y.Interval)) := by
  refine ⟨?_, ?_, ?_⟩
  · intro h
    simp [bindWithRetry, bindRetryConfig.toInternal, h]
  · intro h hfail
    simp only [bindWithRetry, bindRetryConfig.toInternal, h, if_true]
    rw [bindAttempts_all_fail bind y.Interval y.Count 0
      (fun k _ hk2 => hfail k (by omega))]
    simp
  · intro h j hj hbj H
    simp only [bindWithRetry, bindRetryConfig.toInternal, h, if_true]
    rw [bindAttempts_success bind y.Interval y.Count 0 j (Nat.zero_le j)
      (by omega) hbj (fun k _ hk2 => H k hk2)]
    simp

theorem newResolversLoop_spec (ok : String → Bool) (opts : Options) :
    ∀ (addrs : List String) (i fresh : Nat),
      (newResolversLoop ok opts addrs i fresh).2.1 =
        (newResolversLoop ok opts addrs i fresh).1.map
          (fun cr => cr.resolver.ups) ∧
      (newResolversLoop ok opts addrs i fresh).1.map
          (fun cr => cr.resolver.ups.addr) = addrs.filter ok ∧
      (newResolversLoop ok opts addrs i fresh).2.2.1 =
        ((addrs.enumFrom i).filter (fun p => !(ok p.2))).map
          (fun p => BootError.mk p.1 p.2) := by
  intro addrs
  induction addrs with
  | nil => exact fun i fresh => ⟨rfl, rfl, rfl⟩
  | cons a rest ih =>
    intro i fresh
    cases hok : ok a with
    | true =>
      obtain ⟨h1, h2, h3⟩ := ih (i + 1) (fresh + 1)
      simp only [newResolversLoop, newUpstreamResolver, hok, if_true]
      refine ⟨?_, ?_, ?_⟩
      · show _ :: _ = _ :: _
        rw [h1]
      · show _ :: _ = (a :: rest).filter ok
        rw [List.filter_cons_of_pos (by simp [hok])]
        exact congrArg₂ _ rfl h2
      · show (newResolversLoop ok opts rest (i + 1) (fresh + 1)).2.2.1 = _
        rw [h3]
        show _ = (((i, a) :: rest.enumFrom (i + 1)).filter
          (fun p => !(ok p.2))).map (fun p => BootError.mk p.1 p.2)
        rw [List.filter_cons_of_neg (by simp [hok])]
    | false =>
      obtain ⟨h1, h2, h3⟩ := ih (i + 1) fresh
      simp only [newResolversLoop, newUpstreamResolver, hok]
      refine ⟨h1, ?_, ?_⟩
      · show _ = (a :: rest).filter ok
        rw [List.filter_cons_of_neg (by simp [hok])]
        exact h2
      · show (⟨i, a⟩ : BootError) ::
          (newResolversLoop ok opts rest (i + 1) fresh).2.2.1 = _
        rw [h3]
        show _ = (((i, a) :: rest.enumFrom (i + 1)).filter
          (fun p => !(ok p.2))).map (fun p => BootError.mk p.1 p.2)
        rw [List.filter_cons_of_pos (by simp [hok])]
        rfl

/-- C6: `newResolvers` produces one caching-wrapped resolver per address
whose construction succeeds, in input order; a failure at index `i` is
recorded as an error annotated with `i` and that address is skipped; the
closers are exactly the underlying upstreams of the successful resolvers,
in order (so the two lists have equal length); if every address fails, the
chain is empty. -/
theorem c6_bootstrap_chain (ok : String → Bool) (conf : BootstrapConfig) :
    (newResolvers ok conf).2.1 =
      (newResolvers ok conf).1.map (fun cr => cr.resolver.ups) ∧
    (newResolvers ok conf).1.length = (newResolvers ok conf).2.1.length ∧
    (newResolvers ok conf).1.map (fun cr => cr.resolver.ups.addr) =
      conf.Addresses.filter ok ∧
    (newResolvers ok conf).2.2 =
      ((conf.Addresses.enum).filter (fun p => !(ok p.2))).map
        (fun p => BootError.mk p.1 p.2) ∧
    ((∀ a ∈ conf.Addresses, ok a = false) → (newResolvers ok conf).1 = []) := by
  obtain ⟨h1, h2, h3⟩ :=
    newResolversLoop_spec ok (mkBootOpts conf.Timeout) conf.Addresses 0 0
  refine ⟨h1, ?_, h2, h3, ?_⟩
  case refine_1 =>
    show (newResolversLoop ok (mkBootOpts conf.Timeout)
        conf.Addresses 0 0).1.length =
      (newResolversLoop ok (mkBootOpts conf.Timeout)
        conf.Addresses 0 0).2.1.length
    rw [h1, List.length_map]
  intro hall
  have hfil : conf.Addresses.filter ok = [] := by
    rw [List.filter_eq_nil_iff]
    intro a ha
    simp [hall a ha]
  have := h2
  rw [hfil] at this
  exact List.map_eq_nil_iff.mp this

/-! ## Concrete witnesses -/

theorem c1_witness :
    (newUpstreams (fun _ => true) 0
      ⟨[⟨"g1", "udp://8.8.8.8", []⟩, ⟨"g2", "udp://8.8.8.8", []⟩],
        3⟩).attempts.count "udp://8.8.8.8" = 1 ∧
    ∃ u, alookup "udp://8.8.8.8"
        (newUpstreams (fun _ => true) 0
          ⟨[⟨"g1", "udp://8.8.8.8", []⟩, ⟨"g2", "udp://8.8.8.8", []⟩],
            3⟩).addrToUps = some u ∧
      ∀ v ∈ collectUps (newUpstreams (fun _ => true) 0
        ⟨[⟨"g1", "udp://8.8.8.8", []⟩, ⟨"g2", "udp://8.8.8.8", []⟩], 3⟩),
        v.addr = "udp://8.8.8.8" → v = u :=
  c1_unique_handle_per_address (fun _ => true) 0
    ⟨[⟨"g1", "udp://8.8.8.8", []⟩, ⟨"g2", "udp://8.8.8.8", []⟩], 3⟩
    "udp://8.8.8.8" 0 1 ⟨"g1", "udp://8.8.8.8", []⟩
    ⟨"g2", "udp://8.8.8.8", []⟩ (by decide) (by decide) (by decide)
    rfl rfl rfl

theorem c2_witness :
    normKey ("mycompany.local" ++ ".") = normKey "mycompany.local" :=
  c2_domain_key_normalisation.2.2.2.1 "mycompany.local" (by decide)
    (by decide)

theorem c3_witness :
    ((alookup ⟨1, 24⟩ (newUpstreams (fun _ => true) 0
      ⟨[⟨"corp", "udp://10.0.0.1", [⟨⟨1, 24⟩, "Example.COM"⟩]⟩], 5⟩).ups).getD
        ProxyUpstreamConfig.empty).DomainReservedUpstreams =
    ((alookup ⟨1, 24⟩ (newUpstreams (fun _ => true) 0
      ⟨[⟨"corp", "udp://10.0.0.1", [⟨⟨1, 24⟩, "Example.COM"⟩]⟩], 5⟩).ups).getD
        ProxyUpstreamConfig.empty).SpecifiedDomainUpstreams :=
  c3_domain_maps_identical (fun _ => true) 0
    ⟨[⟨"corp", "udp://10.0.0.1", [⟨⟨1, 24⟩, "Example.COM"⟩]⟩], 5⟩ ⟨1, 24⟩
    ((alookup ⟨1, 24⟩ (newUpstreams (fun _ => true) 0
      ⟨[⟨"corp", "udp://10.0.0.1", [⟨⟨1, 24⟩, "Example.COM"⟩]⟩], 5⟩).ups).getD
        ProxyUpstreamConfig.empty)
    (by decide)

theorem c4_witness :
    (newUpstreams (fun _ => true) 0
      ⟨[⟨"default", "udp://1.0.0.1", []⟩], 2⟩).errs = [] :=
  (c4_nonfatal_error_collection (fun _ => true) 0
    ⟨[⟨"default", "udp://1.0.0.1", []⟩], 2⟩).2.2.2.2.mpr (by decide)

theorem c5_witness :
    newUpstreamOrCached (fun _ => true) "udp://9.9.9.9" []
      ⟨"main", "d", 2, some 0⟩ 0 =
    (some ⟨0, "udp://9.9.9.9", ⟨"main", "d", 2, some 0⟩⟩,
      aset "udp://9.9.9.9" ⟨0, "udp://9.9.9.9", ⟨"main", "d", 2, some 0⟩⟩ [],
      1, ["udp://9.9.9.9"]) :=
  (c5_pool_contract (fun _ => true) "udp://9.9.9.9" []
    ⟨"main", "d", 2, some 0⟩ 0).2.1 rfl rfl

theorem c6_witness :
    (newResolvers (fun _ => false) ⟨["1.2.3.4:53"], 1⟩).1 = [] :=
  (c6_bootstrap_chain (fun _ => false) ⟨["1.2.3.4:53"], 1⟩).2.2.2.2
    (by decide)

theorem c8_witness :
    bindWithRetry (fun _ => some 0)
      (bindRetryConfig.toInternal ⟨true, 7, 3⟩) =
    (some 0, 4, List.replicate 3 7) :=
  (c8_bind_retry (fun _ => some (0 : Nat)) ⟨true, 7, 3⟩).2.1 rfl
    (fun _ _ => rfl)

theorem c9_witness :
    alookup ⟨9, 9⟩ (addCriterion
      ⟨0, "udp://1.1.1.1", ⟨"main", "corp", 2, some 0⟩⟩ []
      ⟨⟨1, 2⟩, "x.example"⟩) =
    alookup (⟨9, 9⟩ : NetPfx) ([] : List (NetPfx × ProxyUpstreamConfig)) :=
  (c9_addCriterion_frame
    ⟨0, "udp://1.1.1.1", ⟨"main", "corp", 2, some 0⟩⟩ []
    ⟨⟨1, 2⟩, "x.example"⟩).1 ⟨9, 9⟩ (by decide)

theorem c10_witness :
    (∃ k, alookup "udp://8.8.4.4"
      (newUpstreams (fun _ => true) 0
        ⟨[⟨"g1", "udp://8.8.4.4", []⟩, ⟨"g2", "udp://8.8.4.4", []⟩],
          2⟩).addrToUps =
      some ⟨k, "udp://8.8.4.4", mkMainOpts "g1" 2 0⟩) ∧
    ∀ v ∈ collectUps (newUpstreams (fun _ => true) 0
      ⟨[⟨"g1", "udp://8.8.4.4", []⟩, ⟨"g2", "udp://8.8.4.4", []⟩], 2⟩),
      v.addr = "udp://8.8.4.4" → v.opts = mkMainOpts "g1" 2 0 :=
  (c10_first_caller_options (fun _ => true)).2 0
    ⟨[⟨"g1", "udp://8.8.4.4", []⟩, ⟨"g2", "udp://8.8.4.4", []⟩], 2⟩
    "udp://8.8.4.4" ⟨"g1", "udp://8.8.4.4", []⟩ (by decide) rfl

end AGDC
